import Mathlib

/-!
Verification development for the cycle_ptr runtime (single-header
implementation `include/cycle_ptr.h`; the `detail/` headers and the
`src/*.cc` files in the repository are stale drafts of the same code and
are superseded by the header, which is what all definitions below embed).

The embedding is a shallow, single-threaded one: atomic loads return the
current value of the modelled cell, compare-exchange loops succeed after
at most one reload (there is no interfering writer), and mutex
acquisitions are no-ops.  Machine words are modelled as `Nat`; the packed
reference-count word stores the count in the bits above `color_shift = 2`
and the colour in the low two bits, exactly as the source does.
-/

namespace CyclePtr

/-- Colours used by the GC algorithm (enum `cycle_ptr::detail::color`):
red = 0, black = 1, grey = 2, white = 3. -/
inductive Color : Type where
  | red : Color
  | black : Color
  | grey : Color
  | white : Color
deriving DecidableEq, Repr

/-- Numeric value of a colour, as in the underlying `std::uintptr_t` enum. -/
def colorVal : Color → Nat
  | .red => 0
  | .black => 1
  | .grey => 2
  | .white => 3

/-- Number of low bits used to track colour (`color_shift = 2`). -/
def colorShift : Nat := 2

/-- Extract the number of references from a packed reference-count word:
`(refcounter & ~color_mask) >> color_shift`, which on naturals is division
by `2 ^ color_shift = 4` (the mask only clears the bits shifted out). -/
def getRefs (w : Nat) : Nat := w / 4

/-- Extract the colour from a packed reference-count word
(`refcounter & color_mask`, i.e. the value modulo 4). -/
def getColor (w : Nat) : Color :=
  match w % 4 with
  | 0 => .red
  | 1 => .black
  | 2 => .grey
  | _ => .white

/-- Create a reference-count word with the given count and colour
(`(nrefs << color_shift) | color`; the low two bits are free, so the
bitwise or is plain addition). -/
def makeRefcounter (n : Nat) (c : Color) : Nat := 4 * n + colorVal c

/-- Colour invariant for a reference-count word (`color_invariant`):
a word with a positive count is white or grey, and a black word has a
zero count. -/
def colorInvariant (w : Nat) : Bool :=
  (if 0 < getRefs w then
    decide (getColor w = Color.white) || decide (getColor w = Color.grey)
   else true)
  && (if getColor w = Color.black then decide (getRefs w = 0) else true)

/-- `base_control::acquire`: the CAS loop increments the count and
promotes red to grey; any other colour is kept.  The loop asserts the
colour is never black. -/
def acquireWord (w : Nat) : Nat :=
  makeRefcounter (getRefs w + 1)
    (if getColor w = Color.red then Color.grey else getColor w)

/-- `base_control::acquire_no_red`: unconditional
`fetch_add(1 << color_shift)`; the caller guarantees the colour is
neither red nor black. -/
def acquireNoRedWord (w : Nat) : Nat := w + 4

/-- `base_control::weak_acquire`: fails (returns `none`) exactly when the
observed colour is black; otherwise increments the count, promoting red
to grey. -/
def weakAcquireWord (w : Nat) : Option Nat :=
  if getColor w = Color.black then none
  else
    some (makeRefcounter (getRefs w + 1)
      (if getColor w = Color.red then Color.grey else getColor w))

/-- `base_control::weak_acquire` takes the owning generation's
red-promotion mutex in shared mode before retrying exactly when it
observes the red colour. -/
def weakAcquireRedLock (w : Nat) : Bool := decide (getColor w = Color.red)

/-- `base_control::release`: `fetch_sub(1 << color_shift)`; the count is
asserted positive by the source. -/
def releaseWord (w : Nat) : Nat := w - 4

/-- The mark step of `generation::gc_mark_` on one word: a word already
red is left unchanged (the CAS loop breaks out observing red), otherwise
the colour becomes red when the count is zero and grey when it is
positive, keeping the count. -/
def gcMarkWord (w : Nat) : Nat :=
  if getColor w = Color.red then w
  else makeRefcounter (getRefs w)
    (if getRefs w = 0 then Color.red else Color.grey)

/-- The grey-to-white promotion of `generation::gc_sweep_`: the CAS loop
rewrites the word to the same count with the white colour. -/
def gcSweepWhitenWord (w : Nat) : Nat := makeRefcounter (getRefs w) Color.white

/-- The red-to-grey edge promotion of the sweep phases: a red destination
is promoted to grey (keeping its count); other colours are untouched. -/
def gcPromoteWord (w : Nat) : Nat :=
  if getColor w = Color.red then makeRefcounter (getRefs w) Color.grey else w

/-- Phase 3 of `generation::gc_`: unreachable blocks are exchanged to the
word with zero count and black colour. -/
def gcBlackenWord : Nat := makeRefcounter 0 Color.black

theorem getRefs_makeRefcounter (n : Nat) (c : Color) :
    getRefs (makeRefcounter n c) = n := by
  cases c <;> simp [getRefs, makeRefcounter, colorVal] <;> omega

theorem getColor_makeRefcounter (n : Nat) (c : Color) :
    getColor (makeRefcounter n c) = c := by
  cases c <;> simp [getColor, makeRefcounter, colorVal, Nat.mul_add_mod]

theorem colorInvariant_iff (w : Nat) :
    colorInvariant w = true ↔
      ((0 < getRefs w → getColor w = Color.white ∨ getColor w = Color.grey)
        ∧ (getColor w = Color.black → getRefs w = 0)) := by
  unfold colorInvariant
  by_cases h : 0 < getRefs w <;> by_cases hb : getColor w = Color.black <;>
    simp [h, hb]

theorem getRefs_add_four (w : Nat) : getRefs (w + 4) = getRefs w + 1 := by
  unfold getRefs; omega

theorem getColor_add_four (w : Nat) : getColor (w + 4) = getColor w := by
  unfold getColor
  have h : (w + 4) % 4 = w % 4 := by omega
  rw [h]

theorem getRefs_sub_four (w : Nat) (h : 0 < getRefs w) :
    getRefs (w - 4) = getRefs w - 1 := by
  unfold getRefs at *; omega

theorem getColor_sub_four (w : Nat) (h : 0 < getRefs w) :
    getColor (w - 4) = getColor w := by
  unfold getRefs at h
  unfold getColor
  have hm : (w - 4) % 4 = w % 4 := by omega
  rw [hm]

/-- Claim C2: for every control-block reference-count word satisfying the
colour invariant (`count > 0 ⇒ colour ∈ {WHITE, GREY}` and
`colour = BLACK ⇒ count = 0`), every word-updating operation of the
runtime — `acquire`, `acquire_no_red` (whose caller guarantees the colour
is neither red nor black), `weak_acquire`, `release` (whose caller
guarantees a positive count), and the collector's colour transitions
(the mark step, the grey-to-white sweep promotion, the red-to-grey edge
promotion, and the phase-3 blackening) — yields a word that again
satisfies the colour invariant. -/
theorem color_invariant_preserved (w : Nat) (hinv : colorInvariant w = true) :
    (getColor w ≠ Color.black → colorInvariant (acquireWord w) = true)
    ∧ (getColor w ≠ Color.red → getColor w ≠ Color.black →
        colorInvariant (acquireNoRedWord w) = true)
    ∧ (∀ w', weakAcquireWord w = some w' → colorInvariant w' = true)
    ∧ (0 < getRefs w → colorInvariant (releaseWord w) = true)
    ∧ colorInvariant (gcMarkWord w) = true
    ∧ colorInvariant (gcSweepWhitenWord w) = true
    ∧ colorInvariant (gcPromoteWord w) = true
    ∧ colorInvariant gcBlackenWord = true := by
  rw [colorInvariant_iff] at hinv
  refine ⟨?_, ?_, ?_, ?_, ?_, ?_, ?_, ?_⟩
  · intro hb
    rw [colorInvariant_iff]
    unfold acquireWord
    rcases hc : getColor w <;>
      simp [hc, getRefs_makeRefcounter, getColor_makeRefcounter] <;>
      simp [hc] at hb ⊢
  · intro hr hb
    rw [colorInvariant_iff]
    unfold acquireNoRedWord
    rw [getRefs_add_four, getColor_add_four]
    rcases hc : getColor w with _ | _ | _ | _
    · exact absurd hc hr
    · exact absurd hc hb
    · simp [hc]
    · simp [hc]
  · intro w' hw'
    unfold weakAcquireWord at hw'
    rw [colorInvariant_iff]
    rcases hc : getColor w with _ | _ | _ | _ <;> simp [hc] at hw' <;>
      rw [← hw'] <;>
      simp [hc, getRefs_makeRefcounter, getColor_makeRefcounter]
  · intro hpos
    rw [colorInvariant_iff]
    unfold releaseWord
    rw [getRefs_sub_four w hpos, getColor_sub_four w hpos]
    rcases hc : getColor w with _ | _ | _ | _
    · rcases hinv.1 hpos with h | h <;> rw [hc] at h <;> simp at h
    · exact absurd (hinv.2 hc) (by omega)
    · simp [hc]
    · simp [hc]
  · unfold gcMarkWord
    rcases hc : getColor w with _ | _ | _ | _
    · simpa [hc] using (colorInvariant_iff w).mpr hinv
    · rw [if_neg (by simp), colorInvariant_iff]
      simp [hinv.2 hc, getRefs_makeRefcounter, getColor_makeRefcounter]
    all_goals
      rw [if_neg (by simp [hc]), colorInvariant_iff]
      by_cases h0 : getRefs w = 0 <;>
        simp [h0, getRefs_makeRefcounter, getColor_makeRefcounter]
  · rw [colorInvariant_iff]
    unfold gcSweepWhitenWord
    simp [getRefs_makeRefcounter, getColor_makeRefcounter]
  · unfold gcPromoteWord
    rcases hc : getColor w with _ | _ | _ | _
    · rw [if_pos rfl, colorInvariant_iff]
      simp [getRefs_makeRefcounter, getColor_makeRefcounter]
    all_goals
      rw [if_neg (by simp), colorInvariant_iff]
      exact hinv
  · rw [colorInvariant_iff]
    unfold gcBlackenWord
    simp [getRefs_makeRefcounter, getColor_makeRefcounter]

/-- Witness for `color_invariant_preserved`: the birth word, one strong
reference with the white colour, satisfies the invariant, and the theorem
applies to it. -/
theorem color_invariant_preserved_witness :
    colorInvariant (makeRefcounter 1 Color.white) = true
    ∧ ((getColor (makeRefcounter 1 Color.white) ≠ Color.black →
          colorInvariant (acquireWord (makeRefcounter 1 Color.white)) = true)
      ∧ (getColor (makeRefcounter 1 Color.white) ≠ Color.red →
          getColor (makeRefcounter 1 Color.white) ≠ Color.black →
          colorInvariant (acquireNoRedWord (makeRefcounter 1 Color.white)) = true)
      ∧ (∀ w', weakAcquireWord (makeRefcounter 1 Color.white) = some w' →
          colorInvariant w' = true)
      ∧ (0 < getRefs (makeRefcounter 1 Color.white) →
          colorInvariant (releaseWord (makeRefcounter 1 Color.white)) = true)
      ∧ colorInvariant (gcMarkWord (makeRefcounter 1 Color.white)) = true
      ∧ colorInvariant (gcSweepWhitenWord (makeRefcounter 1 Color.white)) = true
      ∧ colorInvariant (gcPromoteWord (makeRefcounter 1 Color.white)) = true
      ∧ colorInvariant gcBlackenWord = true) :=
  ⟨by decide, color_invariant_preserved (makeRefcounter 1 Color.white) (by decide)⟩

/-! ## Weak-to-strong promotion at the caller (`cycle_weak_ptr::lock`) -/

/-- Pointwise update of a function modelling a mutable table. -/
def fupd {α : Type} (f : Nat → α) (k : Nat) (v : α) : Nat → α :=
  fun x => if x = k then v else f x

/-- `cycle_weak_ptr::lock`: a null target, or a failed `weak_acquire`,
yields a null strong reference (first component `none`); a successful
promotion yields the target and the updated reference-count word.  The
function is total: failure is an ordinary return value, not an error. -/
def weakPtrLock (tctrl : Option Nat) (words : Nat → Nat) :
    Option Nat × (Nat → Nat) :=
  match tctrl with
  | none => (none, words)
  | some c =>
    match weakAcquireWord (words c) with
    | none => (none, words)
    | some w' => (some c, fupd words c w')

/-! ## Generations: sequence numbers and state

`GcState` models the mutable state the generation algorithms touch:
per-generation sequence numbers, GC-pending flags and control lists;
per-control reference-count words, generation pointers and edge lists;
per-vertex owner and destination slots.  `gcRuns` records each
generation a collection was run or requested on, and `mergeLog` records
each `merge0_` that was performed; both exist so that theorems can speak
about collections and merges (not) happening. -/

structure GcState : Type where
  genSeq : Nat → Nat
  genFlag : Nat → Bool
  genCtrls : Nat → List Nat
  ctrlWord : Nat → Nat
  ctrlGen : Nat → Nat
  ctrlEdges : Nat → List Nat
  vtxOwner : Nat → Nat
  vtxDst : Nat → Option Nat
  gcRuns : List Nat
  mergeLog : List (Nat × Nat)

/-- The moveable flag: the lowest bit of a generation's sequence number
(`moveable_seq = 0x1`). -/
def moveableSeq : Nat := 1

/-- `seq & ~moveable_seq`: clear the moveable bit (the lowest bit), which
on naturals is `2 * (seq / 2)`. -/
def clearMoveable (n : Nat) : Nat := 2 * (n / 2)

/-- Initial value of the shared sequence counter `new_seq_state`
(1002; even, so drawn numbers get the moveable bit from the or). -/
def newSeqStateInit : Nat := 1002

/-- `generation::new_seq_`: `fetch_add(2)` on the shared 64-bit counter;
the drawn sequence number is the fetched value with the moveable bit
or-ed in.  Returns the drawn number and the new counter value. -/
def newSeq (c : Nat) : Nat × Nat := (c ||| moveableSeq, (c + 2) % 2 ^ 64)

/-- The sequence-lowering CAS of `generation::fix_ordering`: the write
happens only while the source sequence still has the moveable bit set
and the destination sequence is above 3, and writes exactly the
destination sequence minus one. -/
def lowerSeqCAS (srcSeq dstSeq : Nat) : Option Nat :=
  if srcSeq % 2 = 1 ∧ 3 < dstSeq then some (dstSeq - 1) else none

/-- `generation::order_invariant`:
`origin.seq() < (dest.seq() & ~moveable_seq)`. -/
def orderInvariant (s : GcState) (o d : Nat) : Bool :=
  decide (s.genSeq o < clearMoveable (s.genSeq d))

/-- Replace one generation's sequence number. -/
def updGenSeq (s : GcState) (g : Nat) (v : Nat) : GcState :=
  { s with genSeq := fupd s.genSeq g v }

/-- `dst_gen->seq_.fetch_and(~moveable_seq)`: clear the moveable bit of
the generation that has become the destination of an ordering attempt. -/
def clearDstMoveable (s : GcState) (g : Nat) : GcState :=
  updGenSeq s g (clearMoveable (s.genSeq g))

/-- Record that a collection ran (or was scheduled to run) on `g`. -/
def logGcRun (s : GcState) (g : Nat) : GcState :=
  { s with gcRuns := g :: s.gcRuns }

/-- `generation::gc`: `gc_flag_.test_and_set` returns the previous flag
value; when it was clear the collection runs (directly or through the
delay-GC hook) and `gc_` clears the flag again on entry, so the net flag
value is unchanged and a run is recorded. -/
def requestGc (s : GcState) (g : Nat) : GcState :=
  if s.genFlag g then s else logGcRun s g

/-- `base_control::release`: subtract one reference from the packed
word; when the previous count was one and `skip_gc` is not set, request
a collection on the block's current generation. -/
def releaseCtrl (s : GcState) (c : Nat) (skipGc : Bool) : GcState :=
  let old := s.ctrlWord c
  let s1 : GcState := { s with ctrlWord := fupd s.ctrlWord c (releaseWord old) }
  if !skipGc && getRefs old == 1 then requestGc s1 (s1.ctrlGen c) else s1

/-- `base_control::acquire` on the state. -/
def acquireCtrl (s : GcState) (c : Nat) : GcState :=
  { s with ctrlWord := fupd s.ctrlWord c (acquireWord (s.ctrlWord c)) }

/-- `base_control::acquire_no_red` on the state. -/
def acquireNoRedCtrl (s : GcState) (c : Nat) : GcState :=
  { s with ctrlWord := fupd s.ctrlWord c (acquireNoRedWord (s.ctrlWord c)) }

/-! ## `generation::merge0_` -/

/-- Stage 1 of `merge0_`, one edge: when the edge's destination is
already in the merge destination generation, release one strong
reference with `skip_gc` set (the edge becomes internal and must not
double-count). -/
def merge0Stage1Vtx (s : GcState) (dst : Nat) (v : Nat) : GcState :=
  match s.vtxDst v with
  | none => s
  | some ed => if s.ctrlGen ed = dst then releaseCtrl s ed true else s

/-- Stage 1 of `merge0_`, one control block: walk its outgoing edges
under its edge mutex. -/
def merge0Stage1Ctrl (s : GcState) (dst : Nat) (bc : Nat) : GcState :=
  (s.ctrlEdges bc).foldl (fun t v => merge0Stage1Vtx t dst v) s

/-- The GC-promise propagation of `merge0_`: when the responsibility
boolean is not yet held, `test_and_set` the generation's GC flag and take
the responsibility when the flag was previously clear. -/
def merge0Flags (s : GcState) (g : Nat) (req : Bool) : Bool × GcState :=
  if req then (req, s)
  else (!s.genFlag g, { s with genFlag := fupd s.genFlag g true })

/-- `generation::merge0_`: move every control block of `src` into `dst`.
Promises the source GC (trivially fulfilled once the source is empty),
propagates GC responsibility to the destination, updates edge reference
counters (stage 1), switches the generation pointers (stage 2), and
splices the source control list onto the end of the destination's.
Returns the updated state and whether the caller must GC `dst`. -/
def merge0 (s : GcState) (src dst : Nat) (srcReq dstReq : Bool) :
    GcState × Bool :=
  let p1 := merge0Flags s src srcReq
  let p2 := merge0Flags p1.2 dst dstReq
  -- Stage 1: update edge reference counters.
  let s3 := (p2.2.genCtrls src).foldl (fun t bc => merge0Stage1Ctrl t dst bc) p2.2
  -- Stage 2: switch generation pointers.
  let s4 := (s3.genCtrls src).foldl
    (fun t bc => { t with ctrlGen := fupd t.ctrlGen bc dst }) s3
  -- Splice onto dst.
  let spliced := fupd (fupd s4.genCtrls dst (s4.genCtrls dst ++ s4.genCtrls src)) src []
  let s5 : GcState := { s4 with genCtrls := spliced }
  -- Fulfill the promise of the (now trivial) src GC.
  let s6 := if p1.1 then { s5 with genFlag := fupd s5.genFlag src false } else s5
  -- Re-propagate responsibility for the dst GC.
  let p3 := merge0Flags s6 dst p2.1
  ({ p3.2 with mergeLog := (src, dst) :: p3.2.mergeLog }, p3.1)

/-- Number of strong references stage 1 of `merge0_` releases on block
`c`: one per outgoing edge of a source-generation block whose destination
is `c`, provided `c` is already in the destination generation (judged by
the generation pointers as they are before stage 2 runs). -/
def mergeReleases (s : GcState) (src dst c : Nat) : Nat :=
  if s.ctrlGen c = dst then
    ((s.genCtrls src).map
      (fun bc => (s.ctrlEdges bc).countP (fun v => s.vtxDst v == some c))).sum
  else 0

theorem foldl_pres {α : Type} (P : GcState → α) (f : GcState → Nat → GcState)
    (h : ∀ t v, P (f t v) = P t) :
    ∀ (l : List Nat) (s : GcState), P (l.foldl f s) = P s := by
  intro l
  induction l with
  | nil => intro s; rfl
  | cons v rest ih => intro s; rw [List.foldl_cons, ih, h]

theorem releaseCtrl_skip (s : GcState) (c : Nat) :
    releaseCtrl s c true
      = { s with ctrlWord := fupd s.ctrlWord c (releaseWord (s.ctrlWord c)) } := by
  simp [releaseCtrl]

theorem merge0Stage1Vtx_ctrlWord (s : GcState) (dst v c : Nat) :
    (merge0Stage1Vtx s dst v).ctrlWord c
      = if s.vtxDst v = some c ∧ s.ctrlGen c = dst
        then s.ctrlWord c - 4 else s.ctrlWord c := by
  unfold merge0Stage1Vtx
  rcases hv : s.vtxDst v with _ | ed <;> dsimp only
  · simp
  · by_cases hg : s.ctrlGen ed = dst
    · rw [if_pos hg, releaseCtrl_skip]
      by_cases hc : ed = c
      · subst hc; simp [fupd, hg, releaseWord]
      · simp [fupd, releaseWord, hc, Ne.symm hc]
    · rw [if_neg hg]
      by_cases hc : ed = c
      · subst hc; simp [hg]
      · simp [hc]

theorem merge0Stage1Vtx_rest (s : GcState) (dst v : Nat) :
    (merge0Stage1Vtx s dst v).ctrlGen = s.ctrlGen
    ∧ (merge0Stage1Vtx s dst v).vtxDst = s.vtxDst
    ∧ (merge0Stage1Vtx s dst v).ctrlEdges = s.ctrlEdges
    ∧ (merge0Stage1Vtx s dst v).genCtrls = s.genCtrls
    ∧ (merge0Stage1Vtx s dst v).gcRuns = s.gcRuns
    ∧ (merge0Stage1Vtx s dst v).genFlag = s.genFlag
    ∧ (merge0Stage1Vtx s dst v).genSeq = s.genSeq
    ∧ (merge0Stage1Vtx s dst v).mergeLog = s.mergeLog
    ∧ (merge0Stage1Vtx s dst v).vtxOwner = s.vtxOwner := by
  unfold merge0Stage1Vtx
  rcases s.vtxDst v with _ | ed
  · simp
  · by_cases hg : s.ctrlGen ed = dst <;> simp [hg, releaseCtrl_skip]

theorem merge0Stage1Fold_ctrlWord (vs : List Nat) (s : GcState) (dst c : Nat) :
    ((vs.foldl (fun t v => merge0Stage1Vtx t dst v) s).ctrlWord c)
      = s.ctrlWord c
        - 4 * (if s.ctrlGen c = dst
               then vs.countP (fun v => s.vtxDst v == some c) else 0) := by
  induction vs generalizing s with
  | nil => simp
  | cons v rest ih =>
    rw [List.foldl_cons, ih]
    have hGen := (merge0Stage1Vtx_rest s dst v).1
    have hDst := (merge0Stage1Vtx_rest s dst v).2.1
    rw [hGen, hDst, merge0Stage1Vtx_ctrlWord]
    by_cases hg : s.ctrlGen c = dst
    · by_cases hv : s.vtxDst v = some c
      · simp [hg, hv, List.countP_cons, Nat.mul_add]
        omega
      · simp [hg, hv, List.countP_cons]
    · simp [hg]

theorem merge0Stage1Ctrl_rest (s : GcState) (dst bc : Nat) :
    (merge0Stage1Ctrl s dst bc).ctrlGen = s.ctrlGen
    ∧ (merge0Stage1Ctrl s dst bc).vtxDst = s.vtxDst
    ∧ (merge0Stage1Ctrl s dst bc).ctrlEdges = s.ctrlEdges
    ∧ (merge0Stage1Ctrl s dst bc).genCtrls = s.genCtrls
    ∧ (merge0Stage1Ctrl s dst bc).gcRuns = s.gcRuns
    ∧ (merge0Stage1Ctrl s dst bc).genFlag = s.genFlag
    ∧ (merge0Stage1Ctrl s dst bc).genSeq = s.genSeq
    ∧ (merge0Stage1Ctrl s dst bc).mergeLog = s.mergeLog
    ∧ (merge0Stage1Ctrl s dst bc).vtxOwner = s.vtxOwner := by
  unfold merge0Stage1Ctrl
  refine ⟨?_, ?_, ?_, ?_, ?_, ?_, ?_, ?_, ?_⟩ <;>
    exact foldl_pres _ _ (fun t v => by
      have h := merge0Stage1Vtx_rest t dst v
      tauto) _ s

theorem merge0Stage1Blocks_ctrlWord (bs : List Nat) (s : GcState) (dst c : Nat) :
    ((bs.foldl (fun t bc => merge0Stage1Ctrl t dst bc) s).ctrlWord c)
      = s.ctrlWord c
        - 4 * (if s.ctrlGen c = dst
               then (bs.map
                 (fun bc => (s.ctrlEdges bc).countP
                   (fun v => s.vtxDst v == some c))).sum
               else 0) := by
  induction bs generalizing s with
  | nil => simp
  | cons bc rest ih =>
    rw [List.foldl_cons, ih]
    have h := merge0Stage1Ctrl_rest s dst bc
    rw [h.1, h.2.1, h.2.2.1]
    have hword : (merge0Stage1Ctrl s dst bc).ctrlWord c
        = s.ctrlWord c
          - 4 * (if s.ctrlGen c = dst
                 then (s.ctrlEdges bc).countP (fun v => s.vtxDst v == some c)
                 else 0) :=
      merge0Stage1Fold_ctrlWord (s.ctrlEdges bc) s dst c
    rw [hword]
    by_cases hg : s.ctrlGen c = dst <;> simp [hg, List.map_cons, Nat.mul_add] <;> omega

theorem merge0Stage2_ctrlGen (l : List Nat) (s : GcState) (dst : Nat) (c : Nat) :
    ((l.foldl (fun t bc => { t with ctrlGen := fupd t.ctrlGen bc dst }) s).ctrlGen c)
      = if c ∈ l then dst else s.ctrlGen c := by
  induction l generalizing s with
  | nil => simp
  | cons bc rest ih =>
    rw [List.foldl_cons, ih]
    by_cases hr : c ∈ rest
    · simp [hr]
    · by_cases hc : c = bc <;> simp [hr, hc, fupd]

theorem getRefs_sub_mul (w k : Nat) (h : k ≤ getRefs w) :
    getRefs (w - 4 * k) = getRefs w - k ∧ getColor (w - 4 * k) = getColor w := by
  unfold getRefs at *
  constructor
  · omega
  · unfold getColor
    have hm : (w - 4 * k) % 4 = w % 4 := by omega
    rw [hm]

theorem merge0Flags_rest (s : GcState) (g : Nat) (r : Bool) :
    (merge0Flags s g r).2.ctrlGen = s.ctrlGen
    ∧ (merge0Flags s g r).2.vtxDst = s.vtxDst
    ∧ (merge0Flags s g r).2.ctrlEdges = s.ctrlEdges
    ∧ (merge0Flags s g r).2.genCtrls = s.genCtrls
    ∧ (merge0Flags s g r).2.gcRuns = s.gcRuns
    ∧ (merge0Flags s g r).2.genSeq = s.genSeq
    ∧ (merge0Flags s g r).2.mergeLog = s.mergeLog
    ∧ (merge0Flags s g r).2.vtxOwner = s.vtxOwner
    ∧ (merge0Flags s g r).2.ctrlWord = s.ctrlWord := by
  unfold merge0Flags
  by_cases hr : r <;> simp [hr]

theorem merge0Stage1Blocks_rest (bs : List Nat) (s : GcState) (dst : Nat) :
    ((bs.foldl (fun t bc => merge0Stage1Ctrl t dst bc) s).ctrlGen = s.ctrlGen)
    ∧ ((bs.foldl (fun t bc => merge0Stage1Ctrl t dst bc) s).vtxDst = s.vtxDst)
    ∧ ((bs.foldl (fun t bc => merge0Stage1Ctrl t dst bc) s).ctrlEdges = s.ctrlEdges)
    ∧ ((bs.foldl (fun t bc => merge0Stage1Ctrl t dst bc) s).genCtrls = s.genCtrls)
    ∧ ((bs.foldl (fun t bc => merge0Stage1Ctrl t dst bc) s).gcRuns = s.gcRuns)
    ∧ ((bs.foldl (fun t bc => merge0Stage1Ctrl t dst bc) s).genFlag = s.genFlag)
    ∧ ((bs.foldl (fun t bc => merge0Stage1Ctrl t dst bc) s).genSeq = s.genSeq)
    ∧ ((bs.foldl (fun t bc => merge0Stage1Ctrl t dst bc) s).mergeLog = s.mergeLog)
    ∧ ((bs.foldl (fun t bc => merge0Stage1Ctrl t dst bc) s).vtxOwner = s.vtxOwner) := by
  refine ⟨?_, ?_, ?_, ?_, ?_, ?_, ?_, ?_, ?_⟩ <;>
    exact foldl_pres _ _ (fun t bc => by
      have h := merge0Stage1Ctrl_rest t dst bc
      tauto) _ s

theorem merge0Stage2_rest (l : List Nat) (s : GcState) (dst : Nat) :
    ((l.foldl (fun t bc => { t with ctrlGen := fupd t.ctrlGen bc dst }) s).ctrlWord
        = s.ctrlWord)
    ∧ ((l.foldl (fun t bc => { t with ctrlGen := fupd t.ctrlGen bc dst }) s).genCtrls
        = s.genCtrls)
    ∧ ((l.foldl (fun t bc => { t with ctrlGen := fupd t.ctrlGen bc dst }) s).gcRuns
        = s.gcRuns)
    ∧ ((l.foldl (fun t bc => { t with ctrlGen := fupd t.ctrlGen bc dst }) s).genFlag
        = s.genFlag) := by
  exact ⟨foldl_pres (fun t => t.ctrlWord)
           (fun t bc => { t with ctrlGen := fupd t.ctrlGen bc dst })
           (fun t bc => rfl) l s,
         foldl_pres (fun t => t.genCtrls)
           (fun t bc => { t with ctrlGen := fupd t.ctrlGen bc dst })
           (fun t bc => rfl) l s,
         foldl_pres (fun t => t.gcRuns)
           (fun t bc => { t with ctrlGen := fupd t.ctrlGen bc dst })
           (fun t bc => rfl) l s,
         foldl_pres (fun t => t.genFlag)
           (fun t bc => { t with ctrlGen := fupd t.ctrlGen bc dst })
           (fun t bc => rfl) l s⟩

theorem merge0_fst_fields (s : GcState) (src dst : Nat) (a b : Bool) :
    ((merge0 s src dst a b).1.genCtrls
        = fupd (fupd s.genCtrls dst (s.genCtrls dst ++ s.genCtrls src)) src [])
    ∧ (∀ c, (merge0 s src dst a b).1.ctrlGen c
        = if c ∈ s.genCtrls src then dst else s.ctrlGen c)
    ∧ (∀ c, (merge0 s src dst a b).1.ctrlWord c
        = s.ctrlWord c - 4 * mergeReleases s src dst c)
    ∧ (merge0 s src dst a b).1.gcRuns = s.gcRuns := by
  unfold merge0
  have h1 := merge0Flags_rest s src a
  have h2 := merge0Flags_rest (merge0Flags s src a).2 dst b
  set s2 := (merge0Flags (merge0Flags s src a).2 dst b).2 with hs2
  have hs2gc : s2.genCtrls = s.genCtrls := by rw [h2.2.2.2.1, h1.2.2.2.1]
  have hs2cg : s2.ctrlGen = s.ctrlGen := by rw [h2.1, h1.1]
  have hs2vd : s2.vtxDst = s.vtxDst := by rw [h2.2.1, h1.2.1]
  have hs2ce : s2.ctrlEdges = s.ctrlEdges := by rw [h2.2.2.1, h1.2.2.1]
  have hs2cw : s2.ctrlWord = s.ctrlWord := by
    rw [h2.2.2.2.2.2.2.2.2, h1.2.2.2.2.2.2.2.2]
  have hs2gr : s2.gcRuns = s.gcRuns := by rw [h2.2.2.2.2.1, h1.2.2.2.2.1]
  set s3 := (s2.genCtrls src).foldl (fun t bc => merge0Stage1Ctrl t dst bc) s2 with hs3
  have h3 := merge0Stage1Blocks_rest (s2.genCtrls src) s2 dst
  have hs3gc : s3.genCtrls = s.genCtrls := by rw [hs3, h3.2.2.2.1, hs2gc]
  have hs3cg : s3.ctrlGen = s.ctrlGen := by rw [hs3, h3.1, hs2cg]
  have hs3gr : s3.gcRuns = s.gcRuns := by rw [hs3, h3.2.2.2.2.1, hs2gr]
  have hs3cw : ∀ c, s3.ctrlWord c = s.ctrlWord c - 4 * mergeReleases s src dst c := by
    intro c
    rw [hs3, merge0Stage1Blocks_ctrlWord, hs2gc, hs2cg, hs2ce, hs2vd, hs2cw]
    unfold mergeReleases
    by_cases hg : s.ctrlGen c = dst <;> simp [hg]
  set s4 := (s3.genCtrls src).foldl
    (fun t bc => { t with ctrlGen := fupd t.ctrlGen bc dst }) s3 with hs4
  have h4 := merge0Stage2_rest (s3.genCtrls src) s3 dst
  have hs4cw : s4.ctrlWord = s3.ctrlWord := h4.1
  have hs4gc : s4.genCtrls = s.genCtrls := by rw [hs4, h4.2.1, hs3gc]
  have hs4gr : s4.gcRuns = s.gcRuns := by rw [hs4, h4.2.2.1, hs3gr]
  have hs4cg : ∀ c, s4.ctrlGen c = if c ∈ s.genCtrls src then dst else s.ctrlGen c := by
    intro c
    rw [hs4, merge0Stage2_ctrlGen, hs3gc, hs3cg]
  set g5 := fupd (fupd s4.genCtrls dst (s4.genCtrls dst ++ s4.genCtrls src)) src []
    with hg5
  set s5 : GcState := { s4 with genCtrls := g5 } with hs5
  set s6 : GcState :=
    (if (merge0Flags s src a).1
     then { s5 with genFlag := fupd s5.genFlag src false } else s5) with hs6
  have h6 := merge0Flags_rest s6 dst (merge0Flags (merge0Flags s src a).2 dst b).1
  have hs6gc : s6.genCtrls
      = fupd (fupd s.genCtrls dst (s.genCtrls dst ++ s.genCtrls src)) src [] := by
    rw [hs6]
    by_cases hp : (merge0Flags s src a).1 <;> simp [hp, hs5, hg5, hs4gc]
  have hs6cg : s6.ctrlGen = s4.ctrlGen := by
    rw [hs6]
    by_cases hp : (merge0Flags s src a).1 <;> simp [hp, hs5]
  have hs6cw : s6.ctrlWord = s4.ctrlWord := by
    rw [hs6]
    by_cases hp : (merge0Flags s src a).1 <;> simp [hp, hs5]
  have hs6gr : s6.gcRuns = s4.gcRuns := by
    rw [hs6]
    by_cases hp : (merge0Flags s src a).1 <;> simp [hp, hs5]
  refine ⟨?_, ?_, ?_, ?_⟩
  · show (merge0Flags s6 dst _).2.genCtrls = _
    rw [h6.2.2.2.1, hs6gc]
  · intro c
    show (merge0Flags s6 dst _).2.ctrlGen c = _
    rw [h6.1, hs6cg, hs4cg c]
  · intro c
    show (merge0Flags s6 dst _).2.ctrlWord c = _
    rw [h6.2.2.2.2.2.2.2.2, hs6cw, hs4cw, hs3cw c]
  · show (merge0Flags s6 dst _).2.gcRuns = _
    rw [h6.2.2.2.2.1, hs6gr, hs4gr]

/-- Claim C4: after `merge0_(src, dst)` returns, the source generation's
control list is empty, every control block formerly in the source is on
the destination's control list with its generation pointer equal to the
destination, and for each outgoing edge of a moved block whose
destination block was already in the destination generation (judged by
the generation pointers before stage 2 reassigns them) exactly one
strong reference was released, with `skip_gc` set, in stage 1. -/
theorem merge0_moves_src_into_dst (s : GcState) (src dst : Nat) (a b : Bool)
    (hne : src ≠ dst) :
    (merge0 s src dst a b).1.genCtrls src = []
    ∧ (merge0 s src dst a b).1.genCtrls dst = s.genCtrls dst ++ s.genCtrls src
    ∧ (∀ c ∈ s.genCtrls src,
        (merge0 s src dst a b).1.ctrlGen c = dst
        ∧ c ∈ (merge0 s src dst a b).1.genCtrls dst)
    ∧ (∀ c, (merge0 s src dst a b).1.ctrlWord c
        = s.ctrlWord c - 4 * mergeReleases s src dst c)
    ∧ (∀ c, mergeReleases s src dst c ≤ getRefs (s.ctrlWord c) →
        getRefs ((merge0 s src dst a b).1.ctrlWord c)
            = getRefs (s.ctrlWord c) - mergeReleases s src dst c
        ∧ getColor ((merge0 s src dst a b).1.ctrlWord c)
            = getColor (s.ctrlWord c))
    ∧ (merge0 s src dst a b).1.gcRuns = s.gcRuns := by
  have h := merge0_fst_fields s src dst a b
  have hsrc : (merge0 s src dst a b).1.genCtrls src = [] := by
    rw [h.1]; simp [fupd]
  have hdst : (merge0 s src dst a b).1.genCtrls dst
      = s.genCtrls dst ++ s.genCtrls src := by
    rw [h.1]
    simp [fupd, Ne.symm hne]
  refine ⟨hsrc, hdst, ?_, h.2.2.1, ?_, h.2.2.2⟩
  · intro c hc
    constructor
    · rw [h.2.1 c, if_pos hc]
    · rw [hdst]
      exact List.mem_append_right _ hc
  · intro c hle
    rw [h.2.2.1 c]
    exact getRefs_sub_mul (s.ctrlWord c) (mergeReleases s src dst c) hle

/-- A small concrete state used by the witnesses: control block 0 lives
in generation 0 (sequence 5), control block 1 in generation 1 (sequence
1003); vertex 0 is owned by block 0 and points at block 1; both words
hold one strong reference with the white colour. -/
def witnessState : GcState where
  genSeq := fun g => if g = 0 then 5 else 1003
  genFlag := fun _ => false
  genCtrls := fun g => if g = 0 then [0] else if g = 1 then [1] else []
  ctrlWord := fun _ => makeRefcounter 1 Color.white
  ctrlGen := fun c => if c = 0 then 0 else 1
  ctrlEdges := fun c => if c = 0 then [0] else []
  vtxOwner := fun _ => 0
  vtxDst := fun v => if v = 0 then some 1 else none
  gcRuns := []
  mergeLog := []

/-- Witness for `merge0_moves_src_into_dst`: merging generation 0 into
generation 1 in `witnessState` empties generation 0's list, and the one
edge from block 0 to block 1 (already in the destination) releases
exactly one reference on block 1. -/
theorem merge0_moves_src_into_dst_witness :
    (merge0 witnessState 0 1 false false).1.genCtrls 0 = []
    ∧ getRefs ((merge0 witnessState 0 1 false false).1.ctrlWord 1)
        = getRefs (witnessState.ctrlWord 1) - mergeReleases witnessState 0 1 1 :=
  ⟨(merge0_moves_src_into_dst witnessState 0 1 false false (by decide)).1,
   ((merge0_moves_src_into_dst witnessState 0 1 false false (by decide)).2.2.2.2.1 1
      (by decide)).1⟩

/-! ## Claim C6: weak-to-strong promotion -/

/-- Claim C6: `weak_acquire` fails exactly when the observed colour is
black, and the failure is an ordinary boolean return that the caller
(`cycle_weak_ptr::lock`) maps to a null strong reference; on success the
strong count grows by exactly one, red is promoted to grey (after taking
the owning generation's red-promotion mutex in shared mode), and white
or grey colours are left unchanged. -/
theorem weak_acquire_spec (w : Nat) :
    (weakAcquireWord w = none ↔ getColor w = Color.black)
    ∧ (∀ w', weakAcquireWord w = some w' → getRefs w' = getRefs w + 1)
    ∧ (getColor w = Color.red →
        weakAcquireWord w = some (makeRefcounter (getRefs w + 1) Color.grey)
        ∧ weakAcquireRedLock w = true)
    ∧ ((getColor w = Color.white ∨ getColor w = Color.grey) →
        weakAcquireWord w = some (makeRefcounter (getRefs w + 1) (getColor w))
        ∧ weakAcquireRedLock w = false)
    ∧ (∀ words : Nat → Nat, ∀ c : Nat, getColor (words c) = Color.black →
        (weakPtrLock (some c) words).1 = none)
    ∧ (∀ words : Nat → Nat, (weakPtrLock none words).1 = none) := by
  refine ⟨?_, ?_, ?_, ?_, ?_, ?_⟩
  · unfold weakAcquireWord
    rcases hc : getColor w with _ | _ | _ | _ <;> simp [hc]
  · intro w' hw'
    unfold weakAcquireWord at hw'
    rcases hc : getColor w with _ | _ | _ | _ <;> simp [hc] at hw' <;>
      rw [← hw'] <;> simp [getRefs_makeRefcounter]
  · intro hc
    unfold weakAcquireWord weakAcquireRedLock
    simp [hc]
  · intro hc
    unfold weakAcquireWord weakAcquireRedLock
    rcases hc with hc | hc <;> simp [hc]
  · intro words c hc
    unfold weakPtrLock weakAcquireWord
    simp [hc]
  · intro words
    rfl

/-- Witness for `weak_acquire_spec`: the word with zero count and the
red colour promotes to one count and grey, taking the red-promotion
lock; and a black target yields a null strong reference from `lock`. -/
theorem weak_acquire_spec_witness :
    (getColor (makeRefcounter 0 Color.red) = Color.red
      ∧ (weakAcquireWord (makeRefcounter 0 Color.red)
            = some (makeRefcounter (getRefs (makeRefcounter 0 Color.red) + 1) Color.grey)
          ∧ weakAcquireRedLock (makeRefcounter 0 Color.red) = true))
    ∧ (weakPtrLock (some 0) (fun _ => makeRefcounter 0 Color.black)).1 = none :=
  ⟨⟨by decide, (weak_acquire_spec (makeRefcounter 0 Color.red)).2.2.1 (by decide)⟩,
   (weak_acquire_spec 0).2.2.2.2.1 (fun _ => makeRefcounter 0 Color.black) 0 (by decide)⟩

/-! ## Claim C7: sequence numbers and the moveable bit -/

/-- The first step of each `fix_ordering` loop iteration: when the two
generations differ, the destination generation's moveable bit is cleared
(`fetch_and(~moveable_seq)`) before any lowering attempt is made. -/
def fixOrderingClearStep (s : GcState) (srcGen dstGen : Nat) : GcState :=
  if srcGen ≠ dstGen then clearDstMoveable s dstGen else s

/-- Claim C7: every sequence number drawn by `new_seq_` comes from the
shared counter stepped by two (modulo the 64-bit word) and has the low
(moveable) bit set; the counter starts even (1002); the lowering CAS in
`fix_ordering` fires only while the source sequence still has the
moveable bit set, writes exactly the destination sequence minus one, and
never produces a value below 3; and the destination of an ordering
attempt has its moveable bit cleared (by the loop's first step) before
the attempt. -/
theorem seq_numbers_and_lowering :
    (∀ c : Nat, (newSeq c).1 % 2 = 1 ∧ (newSeq c).2 = (c + 2) % 2 ^ 64)
    ∧ newSeqStateInit % 2 = 0
    ∧ (∀ a b v : Nat, lowerSeqCAS a b = some v →
        a % 2 = 1 ∧ v = b - 1 ∧ 3 ≤ v)
    ∧ (∀ (s : GcState) (srcGen dstGen : Nat), srcGen ≠ dstGen →
        (fixOrderingClearStep s srcGen dstGen).genSeq dstGen % 2 = 0) := by
  refine ⟨?_, by decide, ?_, ?_⟩
  · intro c
    constructor
    · simp [newSeq, moveableSeq]
    · rfl
  · intro a b v hv
    unfold lowerSeqCAS at hv
    by_cases h : a % 2 = 1 ∧ 3 < b
    · rw [if_pos h] at hv
      refine ⟨h.1, ?_, ?_⟩ <;> injection hv with hv <;> omega
    · rw [if_neg h] at hv
      exact absurd hv (by simp)
  · intro s srcGen dstGen hne
    unfold fixOrderingClearStep clearDstMoveable updGenSeq
    rw [if_pos hne]
    simp [fupd, clearMoveable]

/-- Witness for `seq_numbers_and_lowering`: the lowering CAS applied to
a moveable source sequence 1003 and destination sequence 1002 writes
1001, and in `witnessState` the clear step leaves generation 1's
sequence even. -/
theorem seq_numbers_and_lowering_witness :
    (lowerSeqCAS 1003 1002 = some 1001
      ∧ (1003 % 2 = 1 ∧ 1001 = 1002 - 1 ∧ 3 ≤ 1001))
    ∧ ((0 : Nat) ≠ 1
      ∧ (fixOrderingClearStep witnessState 0 1).genSeq 1 % 2 = 0) :=
  ⟨⟨by decide, seq_numbers_and_lowering.2.2.1 1003 1002 1001 (by decide)⟩,
   ⟨by decide, seq_numbers_and_lowering.2.2.2 witnessState 0 1 (by decide)⟩⟩

/-! ## Claim C8: publisher lookup -/

/-- A published range `(base, len, ctrl)` covers the query `[addr,
addr+len)` when the query lies inside `[base, base+len)`. -/
def addrCovers (e : Nat × Nat × Nat) (addr len : Nat) : Prop :=
  e.1 ≤ addr ∧ addr + len ≤ e.1 + e.2.1

instance (e : Nat × Nat × Nat) (addr len : Nat) :
    Decidable (addrCovers e addr len) := by
  unfold addrCovers; infer_instance

/-- `map.upper_bound` followed by stepping back one position: on the
registry (an address-ordered map, modelled as a list of
`(base, length, control)` triples sorted by base), find the last entry
whose base address is at most `addr`; when the first entry is already
past `addr` (`pos == map.begin()`), there is none. -/
def lastLE : List (Nat × Nat × Nat) → Nat → Option (Nat × Nat × Nat)
  | [], _ => none
  | e :: rest, addr =>
    if e.1 ≤ addr then some ((lastLE rest addr).getD e) else none

/-- `base_control::publisher::lookup`: locate the immediate predecessor
by base address; throw (`Except.error`) when there is none; return its
control block when its end covers the query
(`pos->first.addr + pos->first.len >= addr + len`), else throw. -/
def publisherLookup (reg : List (Nat × Nat × Nat)) (addr len : Nat) :
    Except Unit Nat :=
  match lastLE reg addr with
  | none => .error ()
  | some e => if addr + len ≤ e.1 + e.2.1 then .ok e.2.2 else .error ()

theorem lastLE_mem (reg : List (Nat × Nat × Nat)) (addr : Nat) :
    ∀ e, lastLE reg addr = some e → e ∈ reg ∧ e.1 ≤ addr := by
  induction reg with
  | nil => intro e h; exact absurd h (by simp [lastLE])
  | cons hd rest ih =>
    intro e h
    unfold lastLE at h
    by_cases hle : hd.1 ≤ addr
    · rw [if_pos hle] at h
      injection h with h
      rcases hr : lastLE rest addr with _ | e'
      · rw [hr] at h
        simp at h
        exact ⟨by simp [← h], by rw [← h]; exact hle⟩
      · rw [hr] at h
        simp at h
        have := ih e' hr
        exact ⟨by simp [← h, this.1], by rw [← h]; exact this.2⟩
    · rw [if_neg hle] at h
      exact absurd h (by simp)

/-- Claim C8: publisher lookup returns the control block of the range
found as immediate predecessor by base address whenever that range
covers the query; whatever it returns covers the query; and when no
published range covers the query it fails with the error at the lookup
site. -/
theorem publisher_lookup_spec (reg : List (Nat × Nat × Nat)) (addr len : Nat) :
    (∀ e, lastLE reg addr = some e → addrCovers e addr len →
        publisherLookup reg addr len = .ok e.2.2)
    ∧ (∀ c, publisherLookup reg addr len = .ok c →
        ∃ e ∈ reg, e.2.2 = c ∧ addrCovers e addr len)
    ∧ ((∀ e ∈ reg, ¬ addrCovers e addr len) →
        publisherLookup reg addr len = .error ()) := by
  have h2 : ∀ c, publisherLookup reg addr len = .ok c →
      ∃ e ∈ reg, e.2.2 = c ∧ addrCovers e addr len := by
    intro c hc
    unfold publisherLookup at hc
    rcases he : lastLE reg addr with _ | e
    · rw [he] at hc
      exact absurd hc (by simp)
    · rw [he] at hc
      dsimp only at hc
      by_cases hcov : addr + len ≤ e.1 + e.2.1
      · rw [if_pos hcov] at hc
        injection hc with hc
        have hm := lastLE_mem reg addr e he
        exact ⟨e, hm.1, hc, hm.2, hcov⟩
      · rw [if_neg hcov] at hc
        exact absurd hc (by simp)
  refine ⟨?_, h2, ?_⟩
  · intro e he hcov
    unfold publisherLookup
    rw [he]
    dsimp only
    rw [if_pos hcov.2]
  · intro hnone
    rcases hr : publisherLookup reg addr len with u | c
    · rfl
    · exfalso
      rcases h2 c hr with ⟨e, hmem, _, hcov⟩
      exact hnone e hmem hcov

/-- Witness for `publisher_lookup_spec`: on the registry with the single
range `[10, 30)` owned by control 7, the query `[12, 16)` finds the
predecessor, is covered, and lookup returns control 7. -/
theorem publisher_lookup_spec_witness :
    (lastLE [(10, 20, 7)] 12 = some (10, 20, 7)
      ∧ addrCovers (10, 20, 7) 12 4
      ∧ publisherLookup [(10, 20, 7)] 12 4 = .ok 7)
    ∧ ((∀ e ∈ [((10 : Nat), (20 : Nat), (7 : Nat))], ¬ addrCovers e 40 4)
      ∧ publisherLookup [(10, 20, 7)] 40 4 = .error ()) :=
  ⟨⟨by decide, ⟨by decide, by decide⟩,
    (publisher_lookup_spec [(10, 20, 7)] 12 4).1 (10, 20, 7) (by decide)
      ⟨by decide, by decide⟩⟩,
   ⟨by decide,
    (publisher_lookup_spec [(10, 20, 7)] 40 4).2.2 (by decide)⟩⟩

/-! ## Claim C9: idempotent delayed-collection capability -/

/-- `gc_operation`: holds the generation on which to run a GC, or
nothing (default constructor / after a run). -/
structure GcOperation : Type where
  g : Option Nat
deriving DecidableEq, Repr

/-- The default-constructed `gc_operation`, which performs no
collections. -/
def gcOperationNull : GcOperation := ⟨none⟩

/-- `gc_operation::operator()`: if a generation is held, run `gc_` on it
(modelled by the ambient collection function `gcRun`); then clear the
held generation (`g_.reset()`). -/
def gcOperationInvoke {σ : Type} (gcRun : Nat → σ → σ) :
    GcOperation × σ → GcOperation × σ
  | (⟨none⟩, st) => (⟨none⟩, st)
  | (⟨some g⟩, st) => (⟨none⟩, gcRun g st)

theorem gcOperationInvoke_invoke {σ : Type} (gcRun : Nat → σ → σ)
    (p : GcOperation × σ) :
    gcOperationInvoke gcRun (gcOperationInvoke gcRun p)
      = gcOperationInvoke gcRun p := by
  rcases p with ⟨⟨_ | g⟩, st⟩ <;> rfl

/-- Claim C9: invoking the delay-GC capability `n ≥ 1` times equals
invoking it once: the first invocation runs the collection on the
captured generation and clears the captured pointer, every later
invocation is the identity, and the default-constructed capability never
collects. -/
theorem gc_operation_idempotent {σ : Type} (gcRun : Nat → σ → σ)
    (op : GcOperation) (st : σ) (n : Nat) (hn : 1 ≤ n) :
    (gcOperationInvoke gcRun)^[n] (op, st) = gcOperationInvoke gcRun (op, st)
    ∧ (∀ g st', gcOperationInvoke gcRun (⟨some g⟩, st') = (⟨none⟩, gcRun g st'))
    ∧ (∀ st' : σ, gcOperationInvoke gcRun (gcOperationNull, st')
        = (gcOperationNull, st')) := by
  refine ⟨?_, fun g st' => rfl, fun st' => rfl⟩
  induction n with
  | zero => exact absurd hn (by omega)
  | succ m ih =>
    rcases Nat.eq_or_lt_of_le hn with h1 | h1
    · rw [← h1]
      simp
    · have hm : 1 ≤ m := by omega
      rw [Function.iterate_succ_apply', ih hm, gcOperationInvoke_invoke]

/-- Witness for `gc_operation_idempotent`: three invocations on a
capability holding generation 2 equal one invocation, over a state that
counts collection runs. -/
theorem gc_operation_idempotent_witness :
    (1 : Nat) ≤ 3
    ∧ ((gcOperationInvoke (fun g st => g :: st))^[3] (⟨some 2⟩, ([] : List Nat))
        = gcOperationInvoke (fun g st => g :: st) (⟨some 2⟩, ([] : List Nat))
      ∧ (∀ g st', gcOperationInvoke (fun g st => g :: st) (⟨some g⟩, st')
          = (⟨none⟩, g :: st'))
      ∧ (∀ st' : List Nat,
          gcOperationInvoke (fun g st => g :: st) (gcOperationNull, st')
            = (gcOperationNull, st'))) :=
  ⟨by decide,
   gc_operation_idempotent (fun g st => g :: st) ⟨some 2⟩ [] 3 (by decide)⟩

/-! ## Claim C3: the mark phase `generation::gc_mark_`

The source walks the control list with two iterators: `wavefront_end`
marks the boundary of the front (wavefront) segment, and `i` walks the
whole list.  A block whose CAS observes red is skipped (it stays in the
tail); otherwise the block is recoloured (red when its count is zero,
grey otherwise) and, when grey, spliced to the end of the wavefront
segment.  Functionally the final list is the grey blocks in original
order followed by the red blocks in original order, and the returned
iterator is the boundary between them.  `gcMarkLoop` accumulates the two
segments (`wf` and `reds`) while walking the remaining list. -/

def gcMarkLoop (w : Nat → Nat) (rest wf reds : List Nat) :
    (Nat → Nat) × List Nat × List Nat :=
  match rest with
  | [] => (w, wf, reds)
  | c :: rest2 =>
    if getColor (w c) = Color.red then
      gcMarkLoop w rest2 wf (reds ++ [c])
    else if getRefs (w c) = 0 then
      gcMarkLoop (fupd w c (gcMarkWord (w c))) rest2 wf (reds ++ [c])
    else
      gcMarkLoop (fupd w c (gcMarkWord (w c))) rest2 (wf ++ [c]) reds

/-- `generation::gc_mark_` on generation `g`: recolour every block of
the control list, move the grey ones into the front (wavefront) segment,
and return the updated state together with the position of
`wavefront_end` in the reordered list. -/
def gcMark (s : GcState) (g : Nat) : GcState × Nat :=
  let r := gcMarkLoop s.ctrlWord (s.genCtrls g) [] []
  ({ s with ctrlWord := r.1, genCtrls := fupd s.genCtrls g (r.2.1 ++ r.2.2) },
   r.2.1.length)

theorem gcMarkLoop_spec (rest : List Nat) :
    ∀ (w : Nat → Nat) (wf reds : List Nat),
      rest.Nodup →
      (∀ c ∈ rest, getColor (w c) = Color.red → getRefs (w c) = 0) →
      (gcMarkLoop w rest wf reds).2.1
          = wf ++ rest.filter (fun c => decide (0 < getRefs (w c)))
      ∧ (gcMarkLoop w rest wf reds).2.2
          = reds ++ rest.filter (fun c => decide (getRefs (w c) = 0))
      ∧ (∀ c, (gcMarkLoop w rest wf reds).1 c
          = if c ∈ rest then gcMarkWord (w c) else w c) := by
  induction rest with
  | nil =>
    intro w wf reds _ _
    refine ⟨by simp [gcMarkLoop], by simp [gcMarkLoop], ?_⟩
    intro c
    simp [gcMarkLoop]
  | cons c rest2 ih =>
    intro w wf reds hnd hred
    have hcnotin : c ∉ rest2 := (List.nodup_cons.mp hnd).1
    have hndtail : rest2.Nodup := (List.nodup_cons.mp hnd).2
    by_cases hA : getColor (w c) = Color.red
    · have h0 : getRefs (w c) = 0 := hred c (by simp) hA
      have hredtail : ∀ c2 ∈ rest2, getColor (w c2) = Color.red → getRefs (w c2) = 0 :=
        fun c2 hc2 => hred c2 (by simp [hc2])
      have heq : gcMarkLoop w (c :: rest2) wf reds
          = gcMarkLoop w rest2 wf (reds ++ [c]) := by
        conv_lhs => rw [gcMarkLoop]
        rw [if_pos hA]
      rcases ih w wf (reds ++ [c]) hndtail hredtail with ⟨ih1, ih2, ih3⟩
      refine ⟨?_, ?_, ?_⟩
      · rw [heq, ih1, List.filter_cons]
        simp [h0]
      · rw [heq, ih2, List.filter_cons]
        simp [h0]
      · intro c0
        rw [heq, ih3 c0]
        by_cases hc0 : c0 ∈ rest2
        · simp [hc0]
        · by_cases hcc : c0 = c
          · subst hcc
            have : gcMarkWord (w c0) = w c0 := by unfold gcMarkWord; rw [if_pos hA]
            simp [hc0, this]
          · simp [hc0, hcc]
    · have hw2 : ∀ c2, c2 ≠ c → fupd w c (gcMarkWord (w c)) c2 = w c2 := by
        intro c2 hne
        simp [fupd, hne]
      have hredtail : ∀ c2 ∈ rest2,
          getColor (fupd w c (gcMarkWord (w c)) c2) = Color.red →
            getRefs (fupd w c (gcMarkWord (w c)) c2) = 0 := by
        intro c2 hc2
        have hne : c2 ≠ c := fun h => hcnotin (h ▸ hc2)
        rw [hw2 c2 hne]
        exact hred c2 (by simp [hc2])
      have hfpos : rest2.filter
            (fun c2 => decide (0 < getRefs (fupd w c (gcMarkWord (w c)) c2)))
          = rest2.filter (fun c2 => decide (0 < getRefs (w c2))) := by
        refine List.filter_congr ?_
        intro c2 hc2
        have hne : c2 ≠ c := fun h => hcnotin (h ▸ hc2)
        rw [hw2 c2 hne]
      have hfzero : rest2.filter
            (fun c2 => decide (getRefs (fupd w c (gcMarkWord (w c)) c2) = 0))
          = rest2.filter (fun c2 => decide (getRefs (w c2) = 0)) := by
        refine List.filter_congr ?_
        intro c2 hc2
        have hne : c2 ≠ c := fun h => hcnotin (h ▸ hc2)
        rw [hw2 c2 hne]
      by_cases h0 : getRefs (w c) = 0
      · have heq : gcMarkLoop w (c :: rest2) wf reds
            = gcMarkLoop (fupd w c (gcMarkWord (w c))) rest2 wf (reds ++ [c]) := by
          conv_lhs => rw [gcMarkLoop]
          rw [if_neg hA, if_pos h0]
        rcases ih (fupd w c (gcMarkWord (w c))) wf (reds ++ [c]) hndtail hredtail
          with ⟨ih1, ih2, ih3⟩
        refine ⟨?_, ?_, ?_⟩
        · rw [heq, ih1, hfpos, List.filter_cons]
          simp [h0]
        · rw [heq, ih2, hfzero, List.filter_cons]
          simp [h0]
        · intro c0
          rw [heq, ih3 c0]
          by_cases hc0 : c0 ∈ rest2
          · have hne : c0 ≠ c := fun h => hcnotin (h ▸ hc0)
            simp [hc0, hw2 c0 hne]
          · by_cases hcc : c0 = c
            · subst hcc
              simp [hc0, fupd]
            · simp [hc0, hcc, hw2 c0 hcc]
      · have heq : gcMarkLoop w (c :: rest2) wf reds
            = gcMarkLoop (fupd w c (gcMarkWord (w c))) rest2 (wf ++ [c]) reds := by
          conv_lhs => rw [gcMarkLoop]
          rw [if_neg hA, if_neg h0]
        rcases ih (fupd w c (gcMarkWord (w c))) (wf ++ [c]) reds hndtail hredtail
          with ⟨ih1, ih2, ih3⟩
        refine ⟨?_, ?_, ?_⟩
        · rw [heq, ih1, hfpos, List.filter_cons]
          simp [h0, Nat.pos_of_ne_zero h0]
        · rw [heq, ih2, hfzero, List.filter_cons]
          simp [h0]
        · intro c0
          rw [heq, ih3 c0]
          by_cases hc0 : c0 ∈ rest2
          · have hne : c0 ≠ c := fun h => hcnotin (h ▸ hc0)
            simp [hc0, hw2 c0 hne]
          · by_cases hcc : c0 = c
            · subst hcc
              simp [hc0, fupd]
            · simp [hc0, hcc, hw2 c0 hcc]

/-- Claim C3, amended: after the mark phase, every block whose observed
strong count was positive is grey and sits in the wavefront segment
before the returned iterator, every block whose observed count was zero
is red and sits after the returned iterator; when no block had a
positive count the returned iterator equals the list *begin* (position
0, empty wavefront), and the returned iterator equals the list end —
the case in which the caller returns early — exactly when every block
had a positive count. -/
theorem gc_mark_partitions (s : GcState) (g : Nat)
    (hnd : (s.genCtrls g).Nodup)
    (hinv : ∀ c ∈ s.genCtrls g, colorInvariant (s.ctrlWord c) = true) :
    (gcMark s g).1.genCtrls g
        = (s.genCtrls g).filter (fun c => decide (0 < getRefs (s.ctrlWord c)))
          ++ (s.genCtrls g).filter (fun c => decide (getRefs (s.ctrlWord c) = 0))
    ∧ (gcMark s g).2
        = ((s.genCtrls g).filter
            (fun c => decide (0 < getRefs (s.ctrlWord c)))).length
    ∧ (∀ c ∈ s.genCtrls g, 0 < getRefs (s.ctrlWord c) →
        getColor ((gcMark s g).1.ctrlWord c) = Color.grey
        ∧ c ∈ ((gcMark s g).1.genCtrls g).take (gcMark s g).2)
    ∧ (∀ c ∈ s.genCtrls g, getRefs (s.ctrlWord c) = 0 →
        getColor ((gcMark s g).1.ctrlWord c) = Color.red
        ∧ c ∈ ((gcMark s g).1.genCtrls g).drop (gcMark s g).2)
    ∧ ((∀ c ∈ s.genCtrls g, getRefs (s.ctrlWord c) = 0) → (gcMark s g).2 = 0)
    ∧ ((gcMark s g).2 = (s.genCtrls g).length ↔
        ∀ c ∈ s.genCtrls g, 0 < getRefs (s.ctrlWord c)) := by
  have hred : ∀ c ∈ s.genCtrls g,
      getColor (s.ctrlWord c) = Color.red → getRefs (s.ctrlWord c) = 0 := by
    intro c hc hcol
    have h := (colorInvariant_iff _).mp (hinv c hc)
    by_contra hne
    rcases h.1 (Nat.pos_of_ne_zero hne) with hw | hw <;> rw [hcol] at hw <;>
      exact absurd hw (by simp)
  rcases gcMarkLoop_spec (s.genCtrls g) s.ctrlWord [] [] hnd hred
    with ⟨h1, h2, h3⟩
  have hctrls : (gcMark s g).1.genCtrls g
      = (s.genCtrls g).filter (fun c => decide (0 < getRefs (s.ctrlWord c)))
        ++ (s.genCtrls g).filter (fun c => decide (getRefs (s.ctrlWord c) = 0)) := by
    show fupd s.genCtrls g _ g = _
    rw [fupd, if_pos rfl, h1, h2]
    simp
  have hk : (gcMark s g).2
      = ((s.genCtrls g).filter
          (fun c => decide (0 < getRefs (s.ctrlWord c)))).length := by
    show (gcMarkLoop s.ctrlWord (s.genCtrls g) [] []).2.1.length = _
    rw [h1]
    simp
  have hword : ∀ c ∈ s.genCtrls g,
      (gcMark s g).1.ctrlWord c = gcMarkWord (s.ctrlWord c) := by
    intro c hc
    show (gcMarkLoop s.ctrlWord (s.genCtrls g) [] []).1 c = _
    rw [h3 c, if_pos hc]
  refine ⟨hctrls, hk, ?_, ?_, ?_, ?_⟩
  · intro c hc hpos
    constructor
    · rw [hword c hc]
      unfold gcMarkWord
      have hnr : getColor (s.ctrlWord c) ≠ Color.red := by
        intro hr
        rw [hred c hc hr] at hpos
        exact absurd hpos (by simp)
      rw [if_neg hnr, if_neg (by omega), getColor_makeRefcounter]
    · rw [hctrls, hk, List.take_left]
      exact List.mem_filter.mpr ⟨hc, by simp [hpos]⟩
  · intro c hc hzero
    constructor
    · rw [hword c hc]
      unfold gcMarkWord
      by_cases hr : getColor (s.ctrlWord c) = Color.red
      · rw [if_pos hr]; exact hr
      · rw [if_neg hr, if_pos hzero, getColor_makeRefcounter]
    · rw [hctrls, hk, List.drop_left]
      exact List.mem_filter.mpr ⟨hc, by simp [hzero]⟩
  · intro hall
    rw [hk]
    have : (s.genCtrls g).filter (fun c => decide (0 < getRefs (s.ctrlWord c)))
        = [] := by
      refine List.filter_eq_nil_iff.mpr ?_
      intro c hc
      simp [hall c hc]
    rw [this]
    rfl
  · rw [hk]
    constructor
    · intro hlen c hc
      have := List.filter_length_eq_length.mp hlen c hc
      simpa using this
    · intro hall
      refine List.filter_length_eq_length.mpr ?_
      intro c hc
      simp [hall c hc]

/-- A one-block state whose only block has a zero strong count (all
blocks unreachable via strong counts). -/
def deadState : GcState :=
  { witnessState with ctrlWord := fun _ => makeRefcounter 0 Color.white }

/-- Counterexample to claim C3 as stated: in `deadState` no block of
generation 0 has a positive count, yet the iterator returned by the mark
phase does not equal the list end — it equals the list begin, and the
list is not empty. -/
theorem gc_mark_all_dead_iterator_is_begin_not_end :
    (∀ c ∈ deadState.genCtrls 0, getRefs (deadState.ctrlWord c) = 0)
    ∧ (gcMark deadState 0).2 ≠ ((gcMark deadState 0).1.genCtrls 0).length
    ∧ (gcMark deadState 0).2 = 0
    ∧ (gcMark deadState 0).1.genCtrls 0 ≠ [] := by
  refine ⟨?_, ?_, ?_, ?_⟩ <;> decide

/-- Witness for `gc_mark_partitions` on `witnessState` generation 0
(one block, one strong reference): the block ends up grey in the
wavefront and the returned iterator is the list end. -/
theorem gc_mark_partitions_witness :
    (witnessState.genCtrls 0).Nodup
    ∧ (∀ c ∈ witnessState.genCtrls 0,
        colorInvariant (witnessState.ctrlWord c) = true)
    ∧ ((gcMark witnessState 0).2 = (witnessState.genCtrls 0).length ↔
        ∀ c ∈ witnessState.genCtrls 0, 0 < getRefs (witnessState.ctrlWord c)) :=
  ⟨by decide, by decide,
   (gc_mark_partitions witnessState 0 (by decide) (by decide)).2.2.2.2.2⟩

/-! ## Claim C1: `generation::merge_` and `generation::fix_ordering`

`merge_` cascades recursively: before moving the merge-source
generation's blocks, every outgoing edge of a source block whose
destination generation is neither the merge source nor the merge
destination, and which would violate `order_invariant` against the merge
destination, has its generation recursively merged into the destination.
The recursion is modelled with explicit fuel (`none` = fuel exhausted);
in the single-threaded embedding an edge needs at most one recursive
merge, after which its generation equals the merge destination and its
`while` loop exits. -/

mutual

def mergeRec (fuel : Nat) (s : GcState) (mSrc mDst : Nat)
    (mSrcReq mDstReq : Bool) : Option (GcState × Bool) :=
  match fuel with
  | 0 => none
  | fuel + 1 =>
    match cascadeCtrls fuel s mSrc mDst (s.genCtrls mSrc) mDstReq with
    | none => none
    | some (s2, req2) => some (merge0 s2 mSrc mDst mSrcReq req2)
termination_by (fuel, 3, 0)

def cascadeCtrls (fuel : Nat) (s : GcState) (mSrc mDst : Nat)
    (bs : List Nat) (req : Bool) : Option (GcState × Bool) :=
  match bs with
  | [] => some (s, req)
  | bc :: rest =>
    match cascadeVtxs fuel s mSrc mDst (s.ctrlEdges bc) req with
    | none => none
    | some (s2, req2) => cascadeCtrls fuel s2 mSrc mDst rest req2
termination_by (fuel, 2, bs.length)

def cascadeVtxs (fuel : Nat) (s : GcState) (mSrc mDst : Nat)
    (vs : List Nat) (req : Bool) : Option (GcState × Bool) :=
  match vs with
  | [] => some (s, req)
  | v :: rest =>
    match cascadeVtx fuel s mSrc mDst v req with
    | none => none
    | some (s2, req2) => cascadeVtxs fuel s2 mSrc mDst rest req2
termination_by (fuel, 1, vs.length)

def cascadeVtx (fuel : Nat) (s : GcState) (mSrc mDst : Nat)
    (v : Nat) (req : Bool) : Option (GcState × Bool) :=
  match fuel with
  | 0 => none
  | fuel + 1 =>
    match s.vtxDst v with
    | none => some (s, req)
    | some ed =>
      if s.ctrlGen ed = mSrc ∨ s.ctrlGen ed = mDst then some (s, req)
      else if orderInvariant s mDst (s.ctrlGen ed) then some (s, req)
      else
        match mergeRec fuel s (s.ctrlGen ed) mDst false req with
        | none => none
        | some (s2, req2) => cascadeVtx fuel s2 mSrc mDst v req2
termination_by (fuel, 0, 0)

end

/-- The sequence-lowering attempt of the `fix_ordering` loop: when the
(re-synced) source generation differs from the destination and the
invariant still fails, try the lowering CAS on the source sequence. -/
def fixOrderingLowerStep (s1 : GcState) (srcC : Nat) (dstGen : Nat) : GcState :=
  if s1.ctrlGen srcC ≠ dstGen
      ∧ orderInvariant s1 (s1.ctrlGen srcC) dstGen = false then
    match lowerSeqCAS (s1.genSeq (s1.ctrlGen srcC)) (s1.genSeq dstGen) with
    | some v => updGenSeq s1 (s1.ctrlGen srcC) v
    | none => s1
  else s1

/-- The early-exit branch of the `fix_ordering` loop body: when the two
generations already coincide, or the invariant already holds, or the
source is still moveable, re-sync `src_gen` with `src.generation_`
(the single-threaded fixpoint of the re-lock loop), try to lower the
source sequence toward the destination's, and break out of the loop
when the generations coincide or the invariant (now) holds.  Returns
the updated state, the current `src_gen`, and the break flag. -/
def fixOrderingBreakStep (s1 : GcState) (srcC : Nat) (srcGen dstGen : Nat) :
    GcState × Nat × Bool :=
  if srcGen = dstGen ∨ orderInvariant s1 srcGen dstGen = true
      ∨ s1.genSeq srcGen % 2 = 1 then
    (fixOrderingLowerStep s1 srcC dstGen,
     s1.ctrlGen srcC,
     decide (s1.ctrlGen srcC = dstGen)
       || orderInvariant (fixOrderingLowerStep s1 srcC dstGen)
            (s1.ctrlGen srcC) dstGen)
  else (s1, srcGen, false)

/-- The generation pair (merge source, merge destination) and their GC
promises handed to `merge_` in the non-break branch of the loop: under
a sequence tie with the destination at the higher address the two are
swapped first, so the merge source is the original source generation;
otherwise the destination generation is merged into the source's. -/
def fixOrderingMergeArgs (s2 : GcState) (srcG dstGen : Nat) (dstReq : Bool) :
    Nat × Nat × Bool × Bool :=
  if s2.genSeq srcG = s2.genSeq dstGen ∧ srcG < dstGen
  then (srcG, dstGen, false, dstReq)
  else (dstGen, srcG, dstReq, false)

/-- `generation::fix_ordering`, single-threaded: the loop clears the
destination's moveable bit, takes the early-exit branch when it applies
(possibly lowering the source sequence), and otherwise merges the
destination generation into the source generation (swapping the two
under a sequence tie with the destination at the higher address), then
refreshes both local generation pointers from the control blocks and
retries.  On break, a collection promised for the destination is run.
Returns the final state and the generation whose merge mutex is held. -/
def fixOrderingLoop (fuel : Nat) (s : GcState) (srcC dstC : Nat)
    (srcGen dstGen : Nat) (dstReq : Bool) : Option (GcState × Nat) :=
  match fuel with
  | 0 => none
  | fuel + 1 =>
    let s1 := fixOrderingClearStep s srcGen dstGen
    let t := fixOrderingBreakStep s1 srcC srcGen dstGen
    if t.2.2 then
      some ((if dstReq then logGcRun t.1 dstGen else t.1), t.2.1)
    else
      let a := fixOrderingMergeArgs t.1 t.2.1 dstGen dstReq
      match mergeRec fuel t.1 a.1 a.2.1 a.2.2.1 a.2.2.2 with
      | none => none
      | some (s3, req3) =>
        if a.2.1 = s3.ctrlGen dstC then
          fixOrderingLoop fuel s3 srcC dstC (s3.ctrlGen srcC) a.2.1 req3
        else
          let s4 := if req3 then logGcRun s3 a.2.1 else s3
          fixOrderingLoop fuel s4 srcC dstC (s4.ctrlGen srcC) (s4.ctrlGen dstC)
            false

/-- `generation::fix_ordering(src, dst)`: run the loop starting from the
generations currently holding the two control blocks. -/
def fixOrdering (fuel : Nat) (s : GcState) (srcC dstC : Nat) :
    Option (GcState × Nat) :=
  fixOrderingLoop fuel s srcC dstC (s.ctrlGen srcC) (s.ctrlGen dstC) false

theorem updGenSeq_ctrlGen (s : GcState) (g v : Nat) :
    (updGenSeq s g v).ctrlGen = s.ctrlGen := rfl

theorem logGcRun_ctrlGen (s : GcState) (g : Nat) :
    (logGcRun s g).ctrlGen = s.ctrlGen := rfl

theorem logGcRun_genSeq (s : GcState) (g : Nat) :
    (logGcRun s g).genSeq = s.genSeq := rfl

theorem fixOrderingClearStep_ctrlGen (s : GcState) (a b : Nat) :
    (fixOrderingClearStep s a b).ctrlGen = s.ctrlGen := by
  unfold fixOrderingClearStep clearDstMoveable updGenSeq
  split <;> rfl

theorem fixOrderingLowerStep_ctrlGen (s1 : GcState) (srcC d : Nat) :
    (fixOrderingLowerStep s1 srcC d).ctrlGen = s1.ctrlGen := by
  unfold fixOrderingLowerStep
  split
  · split <;> rfl
  · rfl

theorem orderInvariant_congr (s t : GcState) (h : s.genSeq = t.genSeq)
    (o d : Nat) : orderInvariant s o d = orderInvariant t o d := by
  unfold orderInvariant
  rw [h]

theorem fixOrderingBreakStep_ctrlGen (s1 : GcState) (srcC a b : Nat) :
    (fixOrderingBreakStep s1 srcC a b).1.ctrlGen = s1.ctrlGen := by
  unfold fixOrderingBreakStep
  split
  · exact fixOrderingLowerStep_ctrlGen s1 srcC b
  · rfl

theorem fixOrderingBreakStep_break (s1 : GcState) (srcC a b : Nat)
    (h : (fixOrderingBreakStep s1 srcC a b).2.2 = true) :
    (fixOrderingBreakStep s1 srcC a b).2.1 = s1.ctrlGen srcC
    ∧ ((fixOrderingBreakStep s1 srcC a b).2.1 = b
       ∨ orderInvariant (fixOrderingBreakStep s1 srcC a b).1
           ((fixOrderingBreakStep s1 srcC a b).2.1) b = true) := by
  unfold fixOrderingBreakStep at h ⊢
  by_cases hc : a = b ∨ orderInvariant s1 a b = true ∨ s1.genSeq a % 2 = 1
  · rw [if_pos hc] at h ⊢
    dsimp only at h ⊢
    refine ⟨rfl, ?_⟩
    rcases Bool.or_eq_true_iff.mp h with h1 | h1
    · exact Or.inl (of_decide_eq_true h1)
    · exact Or.inr h1
  · rw [if_neg hc] at h
    exact absurd h (by simp)

theorem fixOrderingLoop_post (fuel : Nat) :
    ∀ (s : GcState) (srcC dstC srcGen dstGen : Nat) (req : Bool)
      (sf : GcState) (lk : Nat),
      dstGen = s.ctrlGen dstC →
      fixOrderingLoop fuel s srcC dstC srcGen dstGen req = some (sf, lk) →
      sf.ctrlGen srcC = sf.ctrlGen dstC
        ∨ orderInvariant sf (sf.ctrlGen srcC) (sf.ctrlGen dstC) = true := by
  induction fuel with
  | zero =>
    intro s srcC dstC srcGen dstGen req sf lk _ h
    exact absurd h (by simp [fixOrderingLoop])
  | succ fuel ih =>
    intro s srcC dstC srcGen dstGen req sf lk hdst h
    simp only [fixOrderingLoop] at h
    set s1 := fixOrderingClearStep s srcGen dstGen with hs1
    set t := fixOrderingBreakStep s1 srcC srcGen dstGen with ht
    have hs1cg : s1.ctrlGen = s.ctrlGen := by
      rw [hs1, fixOrderingClearStep_ctrlGen]
    by_cases hb : t.2.2 = true
    · rw [if_pos hb] at h
      rw [Option.some.injEq, Prod.mk.injEq] at h
      obtain ⟨hsf, hlk⟩ := h
      have hbk := fixOrderingBreakStep_break s1 srcC srcGen dstGen hb
      have htcg : t.1.ctrlGen = s.ctrlGen := by
        rw [ht, fixOrderingBreakStep_ctrlGen, hs1, fixOrderingClearStep_ctrlGen]
      have hsfcg : sf.ctrlGen = s.ctrlGen := by
        rw [← hsf]
        by_cases hr : req
        · rw [if_pos hr, logGcRun_ctrlGen, htcg]
        · rw [if_neg hr, htcg]
      have hsfseq : sf.genSeq = t.1.genSeq := by
        rw [← hsf]
        by_cases hr : req
        · rw [if_pos hr, logGcRun_genSeq]
        · rw [if_neg hr]
      have h1 : sf.ctrlGen srcC = t.2.1 := by
        rw [hsfcg, hbk.1, hs1cg]
      have h2 : sf.ctrlGen dstC = dstGen := by
        rw [hsfcg, hdst]
      rcases hbk.2 with hcase | hcase
      · left
        rw [h1, h2]
        exact hcase
      · right
        rw [h1, h2, orderInvariant_congr sf t.1 hsfseq t.2.1 dstGen]
        exact hcase
    · rw [if_neg hb] at h
      set a := fixOrderingMergeArgs t.1 t.2.1 dstGen req with ha
      rcases hm : mergeRec fuel t.1 a.1 a.2.1 a.2.2.1 a.2.2.2 with _ | p
      · rw [hm] at h
        exact absurd h (by simp)
      · rcases p with ⟨s3, req3⟩
        rw [hm] at h
        dsimp only at h
        by_cases hd : a.2.1 = s3.ctrlGen dstC
        · rw [if_pos hd] at h
          exact ih s3 srcC dstC (s3.ctrlGen srcC) a.2.1 req3 sf lk hd h
        · rw [if_neg hd] at h
          exact ih _ srcC dstC _ _ false sf lk rfl h

/-- Claim C1: when `fix_ordering(src, dst)` completes (returns within
its fuel), the post-state satisfies the asserted postcondition: the two
control blocks are in the same generation, or the source generation's
sequence number is below the destination generation's sequence with its
moveable bit masked off; and `order_invariant(origin, dest)` computes
exactly `origin.seq() < (dest.seq() & ~moveable_seq)`, where masking off
the moveable bit of `n` is `n - n % 2`. -/
theorem fix_ordering_postcondition (fuel : Nat) (s : GcState) (srcC dstC : Nat)
    (sf : GcState) (lk : Nat)
    (h : fixOrdering fuel s srcC dstC = some (sf, lk)) :
    (sf.ctrlGen srcC = sf.ctrlGen dstC
      ∨ sf.genSeq (sf.ctrlGen srcC) < clearMoveable (sf.genSeq (sf.ctrlGen dstC)))
    ∧ (∀ (t : GcState) (o d : Nat),
        orderInvariant t o d = true ↔ t.genSeq o < clearMoveable (t.genSeq d))
    ∧ (∀ n : Nat, clearMoveable n = n - n % 2) := by
  have hpost := fixOrderingLoop_post fuel s srcC dstC (s.ctrlGen srcC)
    (s.ctrlGen dstC) false sf lk rfl h
  refine ⟨?_, ?_, ?_⟩
  · rcases hpost with h1 | h1
    · exact Or.inl h1
    · right
      unfold orderInvariant at h1
      exact of_decide_eq_true h1
  · intro t o d
    unfold orderInvariant
    exact decide_eq_true_iff
  · intro n
    unfold clearMoveable
    omega

/-- Witness for `fix_ordering_postcondition`: with source and
destination block both block 0 of `witnessState`, `fix_ordering`
returns at once and the postcondition holds. -/
theorem fix_ordering_postcondition_witness :
    fixOrdering 1 witnessState 0 0 = some (witnessState, 0)
    ∧ ((witnessState.ctrlGen 0 = witnessState.ctrlGen 0
        ∨ witnessState.genSeq (witnessState.ctrlGen 0)
            < clearMoveable (witnessState.genSeq (witnessState.ctrlGen 0)))
      ∧ (∀ (t : GcState) (o d : Nat),
          orderInvariant t o d = true ↔ t.genSeq o < clearMoveable (t.genSeq d))
      ∧ (∀ n : Nat, clearMoveable n = n - n % 2)) :=
  ⟨rfl, fix_ordering_postcondition 1 witnessState 0 0 witnessState 0 rfl⟩

/-! ## Claims C5 and C10: `vertex::reset` -/

/-- `vertex::reset()` (retarget to null): a no-op when the owner is
expired or the slot is already null; otherwise, under the source
generation's merge mutex, exchange the slot with null, then release one
strong reference when the old destination was in a different generation,
or request a collection on it when it is in the same generation with a
zero count and a non-black colour. -/
def vertexResetNull (s : GcState) (v : Nat) : GcState :=
  if getColor (s.ctrlWord (s.vtxOwner v)) = Color.black then s
  else
    match s.vtxDst v with
    | none => s
    | some od =>
      let srcGen := s.ctrlGen (s.vtxOwner v)
      let s1 : GcState := { s with vtxDst := fupd s.vtxDst v none }
      if s1.ctrlGen od ≠ srcGen then releaseCtrl s1 od false
      else if getRefs (s1.ctrlWord od) = 0
          ∧ getColor (s1.ctrlWord od) ≠ Color.black then
        requestGc s1 (s1.ctrlGen od)
      else s1

/-- `vertex::reset(new_dst, has_reference, no_red_promotion)`: when the
owner is expired, release the caller-provided reference (if any) and
return; when the slot already holds `new_dst`, likewise; for a null
`new_dst`, clear the slot under the merge mutex and handle the old
destination as in `reset()`; otherwise run `fix_ordering`, acquire a
reference for a cross-generation edge (or mark the caller reference to
be consumed for a same-generation edge), exchange the slot, handle the
old destination, and finally perform the delayed reference drops and
collection request outside the lock.  `none` = `fix_ordering` fuel
exhausted. -/
def vertexReset (fuel : Nat) (s : GcState) (v : Nat) (newDst : Option Nat)
    (hasRef noRed : Bool) : Option GcState :=
  if getColor (s.ctrlWord (s.vtxOwner v)) = Color.black then
    some (match newDst with
          | some nd => if hasRef then releaseCtrl s nd false else s
          | none => s)
  else if s.vtxDst v = newDst then
    some (match newDst with
          | some nd => if hasRef then releaseCtrl s nd false else s
          | none => s)
  else
    match newDst with
    | none =>
      let srcGen := s.ctrlGen (s.vtxOwner v)
      let old := s.vtxDst v
      let s1 : GcState := { s with vtxDst := fupd s.vtxDst v none }
      some (match old with
        | none => s1
        | some od =>
          if s1.ctrlGen od ≠ srcGen then releaseCtrl s1 od false
          else if getRefs (s1.ctrlWord od) = 0
              ∧ getColor (s1.ctrlWord od) ≠ Color.black then
            requestGc s1 (s1.ctrlGen od)
          else s1)
    | some nd =>
      match fixOrdering fuel s (s.vtxOwner v) nd with
      | none => none
      | some (s1, _lockGen) =>
        let srcGen := s1.ctrlGen (s.vtxOwner v)
        let acq : GcState × Bool :=
          if s1.ctrlGen nd ≠ srcGen then
            ((if !hasRef then
                (if noRed then acquireNoRedCtrl s1 nd else acquireCtrl s1 nd)
              else s1), false)
          else (s1, hasRef)
        let old := acq.1.vtxDst v
        let s3 : GcState := { acq.1 with vtxDst := fupd acq.1.vtxDst v (some nd) }
        let dropOldGc : Bool × Bool :=
          match old with
          | none => (false, false)
          | some od =>
            if s3.ctrlGen od ≠ srcGen then (true, false)
            else (false,
              decide (getRefs (s3.ctrlWord od) = 0
                ∧ getColor (s3.ctrlWord od) ≠ Color.black))
        let s4 := if acq.2 then releaseCtrl s3 nd false else s3
        let s5 := match old, dropOldGc.1 with
                  | some od, true => releaseCtrl s4 od false
                  | _, _ => s4
        let s6 := match old, dropOldGc.2 with
                  | some od, true => requestGc s5 (s5.ctrlGen od)
                  | _, _ => s5
        some s6

/-- Effect of `base_control::release` (with GC enabled) on the state:
only the released block's word changes (one reference fewer), and a
collection is requested on its generation exactly when the released
reference was the last one and no collection was already pending. -/
theorem releaseCtrl_spec (s : GcState) (c : Nat) :
    (releaseCtrl s c false).vtxDst = s.vtxDst
    ∧ (releaseCtrl s c false).mergeLog = s.mergeLog
    ∧ (releaseCtrl s c false).ctrlGen = s.ctrlGen
    ∧ (releaseCtrl s c false).genSeq = s.genSeq
    ∧ (releaseCtrl s c false).genCtrls = s.genCtrls
    ∧ (releaseCtrl s c false).ctrlEdges = s.ctrlEdges
    ∧ (∀ c2, (releaseCtrl s c false).ctrlWord c2
        = if c2 = c then s.ctrlWord c - 4 else s.ctrlWord c2)
    ∧ (releaseCtrl s c false).gcRuns
        = (if getRefs (s.ctrlWord c) = 1 ∧ s.genFlag (s.ctrlGen c) = false
           then s.ctrlGen c :: s.gcRuns else s.gcRuns) := by
  unfold releaseCtrl requestGc logGcRun
  by_cases h1 : getRefs (s.ctrlWord c) = 1
  · by_cases h2 : s.genFlag (s.ctrlGen c) = true
    · simp [h1, h2, releaseWord, fupd]
    · simp [h1, h2, releaseWord, fupd]
  · simp [h1, releaseWord, fupd]

/-- Claim C5 (amended): when the vertex's owner block is BLACK
(expired), every retarget operation returns normally (no exception) and
leaves the destination slot, the merge log, and every reference count
unchanged, except that a caller-provided inbound reference on the new
destination is released exactly once — and that release may itself
request a collection on the destination's generation when it drops the
last strong reference. -/
theorem vertex_reset_expired_noop (s : GcState) (v : Nat)
    (hexp : getColor (s.ctrlWord (s.vtxOwner v)) = Color.black) :
    vertexResetNull s v = s
    ∧ (∀ (fuel : Nat) (noRed : Bool) (nd : Option Nat),
        vertexReset fuel s v nd false noRed = some s)
    ∧ (∀ (fuel : Nat) (noRed : Bool),
        vertexReset fuel s v none true noRed = some s)
    ∧ (∀ (fuel : Nat) (noRed : Bool) (c : Nat),
        vertexReset fuel s v (some c) true noRed
          = some (releaseCtrl s c false))
    ∧ (∀ c, (releaseCtrl s c false).vtxDst = s.vtxDst
        ∧ (releaseCtrl s c false).mergeLog = s.mergeLog
        ∧ (∀ c2, c2 ≠ c → (releaseCtrl s c false).ctrlWord c2 = s.ctrlWord c2)
        ∧ (releaseCtrl s c false).ctrlWord c = s.ctrlWord c - 4
        ∧ (releaseCtrl s c false).gcRuns
            = (if getRefs (s.ctrlWord c) = 1 ∧ s.genFlag (s.ctrlGen c) = false
               then s.ctrlGen c :: s.gcRuns else s.gcRuns)) := by
  refine ⟨?_, ?_, ?_, ?_, ?_⟩
  · unfold vertexResetNull
    rw [if_pos hexp]
  · intro fuel noRed nd
    unfold vertexReset
    rw [if_pos hexp]
    rcases nd with _ | c <;> rfl
  · intro fuel noRed
    unfold vertexReset
    rw [if_pos hexp]
  · intro fuel noRed c
    unfold vertexReset
    rw [if_pos hexp]
    rfl
  · intro c
    have h := releaseCtrl_spec s c
    refine ⟨h.1, h.2.1, ?_, ?_, h.2.2.2.2.2.2.2⟩
    · intro c2 hne
      rw [h.2.2.2.2.2.2.1 c2, if_neg hne]
    · rw [h.2.2.2.2.2.2.1 c, if_pos rfl]

/-- A state whose block 0 (the owner of every vertex) is expired
(black, zero count) while block 1 still holds one strong reference. -/
def expiredOwnerState : GcState :=
  { witnessState with
      ctrlWord := fun c =>
        if c = 0 then makeRefcounter 0 Color.black
        else makeRefcounter 1 Color.white }

/-- Counterexample to claim C5 as stated: retargeting vertex 0 (whose
owner, block 0, is expired) to block 1 with a caller-provided reference
releases the last strong reference of block 1, and that release requests
a collection — contradicting the claim that no collection is
triggered. -/
theorem vertex_reset_expired_triggers_collection :
    getColor (expiredOwnerState.ctrlWord (expiredOwnerState.vtxOwner 0))
        = Color.black
    ∧ getRefs (expiredOwnerState.ctrlWord 1) = 1
    ∧ (vertexReset 1 expiredOwnerState 0 (some 1) true true).map
        (fun t => t.gcRuns) = some [1]
    ∧ expiredOwnerState.gcRuns = [] :=
  ⟨by decide, by decide, rfl, rfl⟩

/-- Witness for `vertex_reset_expired_noop` on `expiredOwnerState`. -/
theorem vertex_reset_expired_noop_witness :
    getColor (expiredOwnerState.ctrlWord (expiredOwnerState.vtxOwner 0))
        = Color.black
    ∧ vertexResetNull expiredOwnerState 0 = expiredOwnerState
    ∧ vertexReset 1 expiredOwnerState 0 (some 1) true true
        = some (releaseCtrl expiredOwnerState 1 false) :=
  ⟨by decide,
   (vertex_reset_expired_noop expiredOwnerState 0 (by decide)).1,
   (vertex_reset_expired_noop expiredOwnerState 0 (by decide)).2.2.2.1 1 true 1⟩

/-- Claim C10 (amended): retargeting a vertex with a live owner to the
control block it already points at (including null to null) returns
normally and leaves the destination slot, every generation assignment
and sequence number, the generation lists, the edge lists, and all
reference counts unchanged, and performs no merge and no acquire —
except that a caller-supplied pre-acquired reference on the new
destination is released exactly once, and that release may itself
request a collection when it drops the last strong reference. -/
theorem vertex_reset_same_target (s : GcState) (v : Nat) (nd : Option Nat)
    (hlive : getColor (s.ctrlWord (s.vtxOwner v)) ≠ Color.black)
    (hsame : s.vtxDst v = nd) :
    (∀ (fuel : Nat) (noRed : Bool), vertexReset fuel s v nd false noRed = some s)
    ∧ (∀ (fuel : Nat) (noRed : Bool), nd = none →
        vertexReset fuel s v nd true noRed = some s)
    ∧ (∀ (fuel : Nat) (noRed : Bool) (c : Nat), nd = some c →
        vertexReset fuel s v nd true noRed = some (releaseCtrl s c false))
    ∧ (∀ c, (releaseCtrl s c false).vtxDst = s.vtxDst
        ∧ (releaseCtrl s c false).mergeLog = s.mergeLog
        ∧ (releaseCtrl s c false).ctrlGen = s.ctrlGen
        ∧ (releaseCtrl s c false).genSeq = s.genSeq
        ∧ (releaseCtrl s c false).genCtrls = s.genCtrls
        ∧ (releaseCtrl s c false).ctrlEdges = s.ctrlEdges
        ∧ (∀ c2, c2 ≠ c → (releaseCtrl s c false).ctrlWord c2 = s.ctrlWord c2)
        ∧ (releaseCtrl s c false).ctrlWord c = s.ctrlWord c - 4
        ∧ (releaseCtrl s c false).gcRuns
            = (if getRefs (s.ctrlWord c) = 1 ∧ s.genFlag (s.ctrlGen c) = false
               then s.ctrlGen c :: s.gcRuns else s.gcRuns)) := by
  refine ⟨?_, ?_, ?_, ?_⟩
  · intro fuel noRed
    unfold vertexReset
    rw [if_neg hlive, if_pos hsame]
    rcases nd with _ | c <;> rfl
  · intro fuel noRed hnd
    subst hnd
    unfold vertexReset
    rw [if_neg hlive, if_pos hsame]
  · intro fuel noRed c hnd
    subst hnd
    unfold vertexReset
    rw [if_neg hlive, if_pos hsame]
    rfl
  · intro c
    have h := releaseCtrl_spec s c
    refine ⟨h.1, h.2.1, h.2.2.1, h.2.2.2.1, h.2.2.2.2.1, h.2.2.2.2.2.1,
      ?_, ?_, h.2.2.2.2.2.2.2⟩
    · intro c2 hne
      rw [h.2.2.2.2.2.2.1 c2, if_neg hne]
    · rw [h.2.2.2.2.2.2.1 c, if_pos rfl]

/-- Counterexample to claim C10 as stated: in `witnessState` vertex 0
(live owner, block 0) already points at block 1, which holds exactly one
strong reference; retargeting it to block 1 with a caller-supplied
reference releases that last reference, and the release requests a
collection — contradicting the claim that no collection request
occurs. -/
theorem vertex_reset_same_target_triggers_collection :
    getColor (witnessState.ctrlWord (witnessState.vtxOwner 0)) ≠ Color.black
    ∧ witnessState.vtxDst 0 = some 1
    ∧ getRefs (witnessState.ctrlWord 1) = 1
    ∧ (vertexReset 1 witnessState 0 (some 1) true true).map
        (fun t => t.gcRuns) = some [1]
    ∧ witnessState.gcRuns = [] :=
  ⟨by decide, by decide, by decide, rfl, rfl⟩

/-- Witness for `vertex_reset_same_target` on `witnessState`. -/
theorem vertex_reset_same_target_witness :
    getColor (witnessState.ctrlWord (witnessState.vtxOwner 0)) ≠ Color.black
    ∧ witnessState.vtxDst 0 = some 1
    ∧ vertexReset 3 witnessState 0 (some 1) false true = some witnessState
    ∧ vertexReset 3 witnessState 0 (some 1) true true
        = some (releaseCtrl witnessState 1 false) :=
  ⟨by decide, by decide,
   (vertex_reset_same_target witnessState 0 (some 1) (by decide) (by decide)).1
     3 true,
   (vertex_reset_same_target witnessState 0 (some 1) (by decide) (by decide)).2.2.1
     3 true 1 rfl⟩

end CyclePtr
